import Mathlib

/-!
Verification of the event-text command extraction and dispatch engine of the
plus-plus chat bot (`src/events.js`).

The dispatch code of `src/events.js` is embedded faithfully below.  External
collaborators (the score store `points`, the transport `slack.sendMessage`, the
templating `messages`) only matter through which handler invocations are
launched, so each handler invocation is represented as a symbolic reply `ReplyTask`
recording the collaborator calls it performs.  The helper module `helpers.js`
(token extraction and command extraction) and the `lodash.camelcase` dependency
are not part of the repository snapshot; they are modelled from the spec and
marked as such on their doc comments.
-/

/-- Inbound Slack event shape: `{ type, subtype?, text?, user, channel }`.
Fields that the JS code tests with `typeof x === 'undefined'` are `Option`s. -/
structure RawEvent where
  type : Option String
  subtype : Option String
  text : Option String
  user : String
  channel : String
deriving DecidableEq

/-- The five per-command handlers registered in `appCommandHandlers`. -/
inductive MentionHandler
  | leaderboardHandler
  | sendHelp
  | sayThankyou
  | appMentionPlusPlus
  | appMentionMinusMinus
deriving DecidableEq

/-- A launched asynchronous reply task, identified by the handler invocation
that produced it and the arguments it received.  `plusMinus` performs
`points.updateScore item operation` then a send; `retrieveScore` performs
`points.retrieveIndividualScore item` then a send; `selfPlus` only sends;
`mention` and `defaultReply` send one message to the channel. -/
inductive ReplyTask
  | selfPlus (user channel : String)
  | plusMinus (item : String) (operation : Char) (channel : String)
  | retrieveScore (item channel : String)
  | mention (handler : MentionHandler) (user channel : String)
  | defaultReply (channel : String)
deriving DecidableEq

/-- The value `handleEvent` / a handler returns: `false` (not handled),
`Promise.all(promises)` over a batch, a single promise, or — when the
camelCased type names a function-valued property that the `handlers` object
literal inherits from `Object.prototype` — the result of invoking that
inherited member as `handlers[eventName](event, request)`.  The concrete JS
value of an `inheritedCall` depends on the member (for `toString` the truthy
object-stringification string, for `constructor` the event object itself, for
`hasOwnProperty` a boolean); the embedding records the invocation
symbolically, by the member's name. -/
inductive EventResult
  | notHandled
  | batch (tasks : List ReplyTask)
  | one (task : ReplyTask)
  | inheritedCall (name : String)
deriving DecidableEq

/-- Observable outcome of dispatching one event: the reply tasks launched (in
launch order), the console log lines, and the returned value. -/
structure Dispatch where
  launched : List ReplyTask
  logs : List String
  result : EventResult
deriving DecidableEq

/-- The `updateScore` calls issued by a list of launched tasks: one
`(item, operation)` mutation request per `plusMinus` task, in launch order. -/
def updateScoreCalls (tasks : List ReplyTask) : List (String × Char) :=
  tasks.filterMap fun t =>
    match t with
    | .plusMinus item operation _ => some (item, operation)
    | _ => none

/-- JS `!text.trim()`: the text is empty or entirely whitespace. -/
def isBlank (s : String) : Bool :=
  s.data.all Char.isWhitespace

/-- Modelled from the spec: the `lodash.camelcase` dependency used to
normalize `event.type` (word splitting helper).  Splits a character list into
words at non-alphanumeric characters, lower-to-upper boundaries, letter/digit
boundaries, and before the last upper-case letter of an upper-case run that is
followed by lower case.  The accumulator `cur` holds the current word reversed. -/
def camelWordsAux : List Char → List Char → List (List Char)
  | [], cur => if cur.isEmpty then [] else [cur.reverse]
  | c :: cs, cur =>
    if c.isAlphanum = false then
      (if cur.isEmpty then [] else [cur.reverse]) ++ camelWordsAux cs []
    else
      match cur with
      | [] => camelWordsAux cs [c]
      | p :: rest =>
        if p.isLower && c.isUpper then cur.reverse :: camelWordsAux cs [c]
        else if p.isAlpha && c.isDigit then cur.reverse :: camelWordsAux cs [c]
        else if p.isDigit && c.isAlpha then cur.reverse :: camelWordsAux cs [c]
        else if p.isUpper && c.isLower then
          match rest with
          | [] => camelWordsAux cs (c :: cur)
          | q :: _ =>
            if q.isUpper then rest.reverse :: camelWordsAux cs [c, p]
            else camelWordsAux cs (c :: cur)
        else camelWordsAux cs (c :: cur)

/-- Lower-cases a word and upper-cases its first character. -/
def capitalizeWord (w : List Char) : List Char :=
  match w.map Char.toLower with
  | [] => []
  | c :: cs => c.toUpper :: cs

/-- Modelled from the spec: the `lodash.camelcase` dependency used by
`handleEvent` to normalize `event.type` before the handler lookup.  The first
word is lower-cased; every later word is lower-cased and capitalized. -/
def camelCase (s : String) : String :=
  match camelWordsAux s.data [] with
  | [] => ""
  | w :: ws => String.mk (w.map Char.toLower ++ (ws.map capitalizeWord).flatten)

/-- Splits a character list into maximal whitespace-free words. -/
def wordSplit (l : List Char) : List (List Char) :=
  (l.foldr
    (fun c acc =>
      match acc with
      | [] => if c.isWhitespace then [[]] else [[c]]
      | w :: ws => if c.isWhitespace then [] :: (w :: ws) else (c :: w) :: ws)
    [[]]).filter (fun w => w.isEmpty = false)

/-- Modelled from the spec: the operator suffix of a candidate word, one of
the doubled plus, doubled minus, or equals tokens; returns the raw target text
and the single-character operation symbol. -/
def parseOp (w : List Char) : Option (List Char × Char) :=
  match w.reverse with
  | '+' :: '+' :: rest => some (rest.reverse, '+')
  | '-' :: '-' :: rest => some (rest.reverse, '-')
  | '=' :: rest => some (rest.reverse, '=')
  | _ => none

/-- Modelled from the spec: target resolution of the Event Normalizer.  A chat
identity reference written as an at-mention inside angle brackets resolves to
the bare user ID; a bare-name target (already whitespace-trimmed by word
splitting) is kept as-is. -/
def resolveTarget (t : List Char) : List Char :=
  match t with
  | '<' :: '@' :: rest =>
    match rest.reverse with
    | '>' :: mid => mid.reverse
    | _ => t
  | _ => t

/-- Modelled from the spec: `helpers.extractEvents` (helpers.js is absent from
the repository snapshot).  Scans `text` for candidate operation tokens — the
whitespace-delimited words carrying a trailing operator — and returns them in
left-to-right order, or `none` when there is no match (the JS regex match
returns null, so `if (eventItems)` in events.js is false). -/
def extractEvents (text : String) : Option (List String) :=
  let toks := ((wordSplit text.data).filter (fun w => (parseOp w).isSome)).map String.mk
  if toks.isEmpty then none else some toks

/-- Modelled from the spec: `helpers.extractPlusMinusEventData` (helpers.js is
absent from the repository snapshot).  Parses one token into its
`{ item, operation }` data: the operator suffix becomes the operation symbol
and the resolved target becomes the item (which, as in the JS regex, may be
the empty string — events.js itself rejects falsy items). -/
def extractPlusMinusEventData (eventItem : String) : Option (String × Char) :=
  (parseOp eventItem.data).map (fun p => (String.mk (resolveTarget p.1), p.2))

/-- The valid `(item, operation)` data extractable from a text: every token's
extracted data whose item is non-empty.  Used to state the empty-batch case. -/
def validTokens (text : String) : List (String × Char) :=
  (((extractEvents text).getD []).filterMap extractPlusMinusEventData).filter
    (fun p => decide (p.1 ≠ ""))

/-- JS `Array.prototype.indexOf`: index of the first occurrence, `-1` if the
element is absent. -/
def jsIndexOf (x : Option String) : List (Option String) → Int
  | [] => -1
  | y :: ys =>
    if y = x then 0
    else
      let r := jsIndexOf x ys
      if r = -1 then -1 else r + 1

/-- `handleSelfPlus` from events.js: logs the attempt and returns the promise
of a message sent back to the channel.  No score-store call is made. -/
def handleSelfPlus (user channel : String) : List String × ReplyTask :=
  ([user ++ " tried to alter their own score."], ReplyTask.selfPlus user channel)

/-- `handlePlusMinus` from events.js: awaits `points.updateScore item
operation`, then sends the templated message; abstracted as the task value. -/
def handlePlusMinus (item : String) (operation : Char) (channel : String) : ReplyTask :=
  ReplyTask.plusMinus item operation channel

/-- `handleRetrieveScore` from events.js: awaits
`points.retrieveIndividualScore item`, then sends the score message. -/
def handleRetrieveScore (item channel : String) : ReplyTask :=
  ReplyTask.retrieveScore item channel

/-- State threaded through the `eventItems.forEach` loop of the message
handler: the collected `promises` array, the `alreadyBeenHandledItems` array
(`none` is the JS `undefined` pushed when extraction failed), plus the
observable launches and logs. -/
structure MsgState where
  promises : List ReplyTask
  already : List (Option String)
  launched : List ReplyTask
  logs : List String
deriving DecidableEq

/-- One iteration of the `eventItems.forEach` loop in `handlers.message`.
Mirrors events.js: extraction failure or a falsy item or
`alreadyBeenHandledItems.indexOf(item) > 0` sets `promise = false`; the item is
always pushed onto `alreadyBeenHandledItems`; otherwise the self-plus guard and
the equals guard each launch their handler, and then `promise` is
unconditionally overwritten by `handlePlusMinus` whose task alone is pushed
onto `promises`. -/
def processItem (event : RawEvent) (st : MsgState) (eventItem : String) : MsgState :=
  match extractPlusMinusEventData eventItem with
  | none => { st with already := st.already ++ [none] }
  | some (item, operation) =>
    if item = "" ∨ jsIndexOf (some item) st.already > 0 then
      { st with already := st.already ++ [some item] }
    else
      let selfLaunch :=
        if item = event.user ∧ operation = '+'
          then [(handleSelfPlus event.user event.channel).2] else []
      let selfLogs :=
        if item = event.user ∧ operation = '+'
          then (handleSelfPlus event.user event.channel).1 else []
      let retrieveLaunch :=
        if operation = '=' then [handleRetrieveScore item event.channel] else []
      let finalTask := handlePlusMinus item operation event.channel
      { promises := st.promises ++ [finalTask]
        already := st.already ++ [some item]
        launched := st.launched ++ selfLaunch ++ retrieveLaunch ++ [finalTask]
        logs := st.logs ++ selfLogs }

/-- The text of an event as the (already validated) handlers read it. -/
def RawEvent.textStr (event : RawEvent) : String :=
  event.text.getD ""

/-- The `appCommandHandlers` table of `handlers.appMention` in events.js. -/
def appCommandHandlers : List (String × MentionHandler) :=
  [("leaderboard", .leaderboardHandler),
   ("help", .sendHelp),
   ("thx", .sayThankyou),
   ("thanks", .sayThankyou),
   ("thankyou", .sayThankyou),
   ("++", .appMentionPlusPlus),
   ("--", .appMentionMinusMinus)]

/-- `Object.keys(appCommandHandlers)` from events.js. -/
def validCommands : List String :=
  appCommandHandlers.map Prod.fst

/-- Modelled from the spec: `helpers.extractCommand` (helpers.js is absent
from the repository snapshot).  Strips the leading bot self-reference token,
then matches the remaining first word against the command vocabulary,
returning the matched command tag or `none`. -/
def extractCommand (text : String) (commands : List String) : Option String :=
  match (wordSplit text.data).map String.mk with
  | [] => none
  | _ :: [] => none
  | _ :: w :: _ => if w ∈ commands then some w else none

namespace handlers

/-- `handlers.message` from events.js: extract tokens, run the forEach loop,
and return `Promise.all(promises)` when any promise was collected, else the
boolean `false`. -/
def message (event : RawEvent) : Dispatch :=
  match extractEvents event.textStr with
  | none => ⟨[], [], .notHandled⟩
  | some eventItems =>
    let st := eventItems.foldl (processItem event) ⟨[], [], [], []⟩
    ⟨st.launched, st.logs,
      if st.promises.isEmpty then .notHandled else .batch st.promises⟩

/-- `handlers.appMention` from events.js: resolve a command against the
vocabulary and invoke its handler, or send the default reply.  The inner
`none` lookup branch is unreachable because `extractCommand` only returns
members of the vocabulary. -/
def appMention (event : RawEvent) : Dispatch :=
  match extractCommand event.textStr validCommands with
  | some appCommand =>
    match appCommandHandlers.lookup appCommand with
    | some h =>
      ⟨[ReplyTask.mention h event.user event.channel], [],
        .one (ReplyTask.mention h event.user event.channel)⟩
    | none => ⟨[], [], .notHandled⟩
  | none =>
    ⟨[ReplyTask.defaultReply event.channel], [], .one (ReplyTask.defaultReply event.channel)⟩

end handlers

/-- The function-valued properties that an object literal inherits from
`Object.prototype` in Node.  For these names the lookup `handlers[eventName]`
in events.js resolves through the prototype chain to a function, so the
`instanceof Function` check passes even though no handler is registered, and
the inherited member is invoked.  The accessor `__proto__` is excluded: it
yields `Object.prototype` itself, which is not a function.  (Only the names
without underscores are reachable here, since `camelCase` output never
contains an underscore.) -/
def objectPrototypeFunctionProps : List String :=
  ["constructor", "hasOwnProperty", "isPrototypeOf", "propertyIsEnumerable",
   "toLocaleString", "toString", "valueOf",
   "__defineGetter__", "__defineSetter__", "__lookupGetter__", "__lookupSetter__"]

/-- `handleEvent` from events.js: shape validation (missing type, present
subtype, missing or blank text), then routing on `camelCase event.type` via
the `handlers[eventName] instanceof Function` lookup.  The lookup finds the
two registered own properties, but also the function-valued members the
object literal inherits from `Object.prototype`, which are then invoked;
every other name is the logged soft-fail. -/
def handleEvent (event : RawEvent) : Dispatch :=
  match event.type with
  | none => ⟨[], ["Event data missing"], .notHandled⟩
  | some ty =>
    match event.subtype with
    | some sub => ⟨[], ["Unsupported event subtype: " ++ sub], .notHandled⟩
    | none =>
      match event.text with
      | none => ⟨[], ["Event text missing"], .notHandled⟩
      | some txt =>
        if isBlank txt then ⟨[], ["Event text missing"], .notHandled⟩
        else if camelCase ty = "message" then handlers.message event
        else if camelCase ty = "appMention" then handlers.appMention event
        else if camelCase ty ∈ objectPrototypeFunctionProps then
          ⟨[], [], .inheritedCall (camelCase ty)⟩
        else ⟨[], ["Invalid event received: " ++ ty], .notHandled⟩

/-! Helper lemmas about the message-handler loop. -/

/-- When a token extracts no valid item, the loop body only grows the
`alreadyBeenHandledItems` array. -/
theorem processItem_invalid (event : RawEvent) (st : MsgState) (tok : String)
    (h : ∀ item operation,
      extractPlusMinusEventData tok = some (item, operation) → item = "") :
    ∃ a, processItem event st tok = { st with already := a } := by
  cases hx : extractPlusMinusEventData tok with
  | none => exact ⟨st.already ++ [none], by simp [processItem, hx]⟩
  | some p =>
    obtain ⟨item, operation⟩ := p
    have hi : item = "" := h item operation hx
    subst hi
    exact ⟨st.already ++ [some ""], by simp [processItem, hx]⟩

/-- Over a list of tokens none of which extracts a valid item, the loop leaves
`promises`, `launched` and `logs` untouched. -/
theorem foldl_no_valid (event : RawEvent) :
    ∀ (items : List String) (st : MsgState),
      (∀ tok ∈ items, ∀ item operation,
        extractPlusMinusEventData tok = some (item, operation) → item = "") →
      ∃ a, items.foldl (processItem event) st = { st with already := a } := by
  intro items
  induction items with
  | nil => intro st _; exact ⟨st.already, rfl⟩
  | cons tok toks ih =>
    intro st h
    obtain ⟨a1, h1⟩ := processItem_invalid event st tok (h tok (List.mem_cons_self _ _))
    obtain ⟨a2, h2⟩ :=
      ih { st with already := a1 } (fun u hu => h u (List.mem_cons_of_mem _ hu))
    exact ⟨a2, by rw [List.foldl_cons, h1, h2]⟩

/-- A `selfPlus` task launched by one loop iteration was either already there,
or the iteration's token extracted exactly `(event.user, '+')`. -/
theorem selfPlus_mem_processItem (event : RawEvent) (st : MsgState) (tok : String)
    (u c : String)
    (h : ReplyTask.selfPlus u c ∈ (processItem event st tok).launched) :
    ReplyTask.selfPlus u c ∈ st.launched ∨
      (u = event.user ∧ c = event.channel ∧
        extractPlusMinusEventData tok = some (event.user, '+')) := by
  cases hx : extractPlusMinusEventData tok with
  | none => simp only [processItem, hx] at h; exact Or.inl h
  | some p =>
    obtain ⟨item, operation⟩ := p
    simp only [processItem, hx] at h
    by_cases hinv : item = "" ∨ jsIndexOf (some item) st.already > 0
    · rw [if_pos hinv] at h; exact Or.inl h
    · rw [if_neg hinv] at h
      by_cases hguard : item = event.user ∧ operation = '+'
      · obtain ⟨hitem, hop⟩ := hguard
        subst hitem; subst hop
        simp [handleSelfPlus, handleRetrieveScore, handlePlusMinus] at h
        rcases h with h | ⟨hu, hc⟩
        · exact Or.inl h
        · exact Or.inr ⟨hu, hc, rfl⟩
      · by_cases heq : operation = '='
        · subst heq
          simp [hguard, handleSelfPlus, handleRetrieveScore, handlePlusMinus] at h
          exact Or.inl h
        · simp [hguard, heq, handleSelfPlus, handleRetrieveScore, handlePlusMinus] at h
          exact Or.inl h

/-- A `selfPlus` task launched by the whole loop comes from some token that
extracted exactly `(event.user, '+')`. -/
theorem selfPlus_mem_foldl (event : RawEvent) :
    ∀ (items : List String) (st : MsgState) (u c : String),
      ReplyTask.selfPlus u c ∈ (items.foldl (processItem event) st).launched →
      ReplyTask.selfPlus u c ∈ st.launched ∨
        (u = event.user ∧ c = event.channel ∧
          ∃ tok, tok ∈ items ∧
            extractPlusMinusEventData tok = some (event.user, '+')) := by
  intro items
  induction items with
  | nil => intro st u c h; exact Or.inl h
  | cons tok toks ih =>
    intro st u c h
    rw [List.foldl_cons] at h
    rcases ih _ u c h with h' | ⟨hu, hc, x, hx1, hx2⟩
    · rcases selfPlus_mem_processItem event st tok u c h' with h'' | ⟨hu, hc, hx⟩
      · exact Or.inl h''
      · exact Or.inr ⟨hu, hc, tok, List.mem_cons_self _ _, hx⟩
    · exact Or.inr ⟨hu, hc, x, List.mem_cons_of_mem _ hx1, hx2⟩

/-- The self-plus rejection handler is launched only for an increment on the
event's own actor: the self-operation guard fires only for the plus operation. -/
theorem selfPlus_mem_handleEvent (e : RawEvent) (u c : String)
    (h : ReplyTask.selfPlus u c ∈ (handleEvent e).launched) :
    u = e.user ∧ c = e.channel ∧
      ∃ tok, tok ∈ (extractEvents e.textStr).getD [] ∧
        extractPlusMinusEventData tok = some (e.user, '+') := by
  cases hty : e.type with
  | none => simp [handleEvent, hty] at h
  | some ty =>
    cases hsub : e.subtype with
    | some sub => simp [handleEvent, hty, hsub] at h
    | none =>
      cases htx : e.text with
      | none => simp [handleEvent, hty, hsub, htx] at h
      | some txt =>
        simp only [handleEvent, hty, hsub, htx] at h
        by_cases hb : isBlank txt = true
        · rw [if_pos hb] at h; simp at h
        · rw [if_neg hb] at h
          by_cases hm : camelCase ty = "message"
          · rw [if_pos hm] at h
            cases hx : extractEvents e.textStr with
            | none => simp [handlers.message, hx] at h
            | some items =>
              simp only [handlers.message, hx] at h
              rcases selfPlus_mem_foldl e items ⟨[], [], [], []⟩ u c h with
                h' | ⟨hu, hc, tok, ht1, ht2⟩
              · simp at h'
              · exact ⟨hu, hc, tok, by simpa using ht1, ht2⟩
          · rw [if_neg hm] at h
            by_cases ha : camelCase ty = "appMention"
            · rw [if_pos ha] at h
              cases hcmd : extractCommand e.textStr validCommands with
              | some cmd =>
                simp only [handlers.appMention, hcmd] at h
                cases hl : appCommandHandlers.lookup cmd <;> simp [hl] at h
              | none => simp [handlers.appMention, hcmd] at h
            · rw [if_neg ha] at h
              by_cases hp : camelCase ty ∈ objectPrototypeFunctionProps
              · rw [if_pos hp] at h; simp at h
              · rw [if_neg hp] at h; simp at h

/-- The command resolver only returns members of the supplied vocabulary. -/
theorem extractCommand_mem {text : String} {cmds : List String} {cmd : String}
    (h : extractCommand text cmds = some cmd) : cmd ∈ cmds := by
  unfold extractCommand at h
  rcases hm : (wordSplit text.data).map String.mk with _ | ⟨a, _ | ⟨w, ws⟩⟩ <;>
    simp only [hm] at h
  · exact absurd h (by simp)
  · exact absurd h (by simp)
  · by_cases hw : w ∈ cmds
    · rw [if_pos hw] at h
      injection h with h
      subst h
      exact hw
    · rw [if_neg hw] at h
      exact absurd h (by simp)

/-- Every member of the command vocabulary has a registered handler. -/
theorem lookup_validCommands {cmd : String} (h : cmd ∈ validCommands) :
    ∃ hd, appCommandHandlers.lookup cmd = some hd := by
  simp only [validCommands, appCommandHandlers, List.map, List.mem_cons,
    List.mem_singleton, List.not_mem_nil, or_false] at h
  rcases h with rfl | rfl | rfl | rfl | rfl | rfl | rfl <;> exact ⟨_, rfl⟩

/-! Claim theorems. -/

/-- C1: for the event whose actor U0 writes the single token addressing
itself with the doubled plus, the self-plus handler is indeed invoked exactly
once — but, contrary to the claim, a score-store mutation IS issued for that
item: the unconditional reassignment of `promise` to `handlePlusMinus` in
events.js also launches an updateScore("U0", '+') request. -/
theorem selfPlus_attempt_still_calls_updateScore :
    ((handleEvent ⟨some "message", none, some "<@U0>++", "U0", "C1"⟩).launched.count
        (ReplyTask.selfPlus "U0" "C1") = 1) ∧
    updateScoreCalls
        (handleEvent ⟨some "message", none, some "<@U0>++", "U0", "C1"⟩).launched =
      [("U0", '+')] := by decide

/-- C2: for the event whose text is the single token asking for the score of
the thing, the retrieval handler is invoked (retrieveIndividualScore is
called) — but, contrary to the claim, updateScore IS also called with the
equals operation, again because of the unconditional `handlePlusMinus`
reassignment in events.js. -/
theorem retrieve_op_still_calls_updateScore :
    (handleEvent ⟨some "message", none, some "thing=", "U0", "C1"⟩).launched =
      [ReplyTask.retrieveScore "thing" "C1", ReplyTask.plusMinus "thing" '=' "C1"] := by decide

/-- C3: a duplicate of the FIRST target in the batch is not dropped: the
dedup test in events.js is `alreadyBeenHandledItems.indexOf(item) > 0`, which
is false when the first occurrence sits at index 0, so both operations on U1
are applied — contradicting the first-occurrence-wins claim. -/
theorem first_item_duplicate_not_dropped :
    updateScoreCalls
        (handleEvent ⟨some "message", none, some "<@U1>++ <@U1>--", "U0", "C1"⟩).launched =
      [("U1", '+'), ("U1", '-')] := by decide

/-- C3 context: the dedup check does fire for duplicates whose first
occurrence is NOT at index 0, so the divergence is exactly the index-0 case. -/
theorem later_item_duplicate_dropped :
    updateScoreCalls
        (handleEvent ⟨some "message", none, some "<@A>++ <@B>++ <@B>--", "U0", "C1"⟩).launched =
      [("A", '+'), ("B", '+')] := by decide

/-- C5: the self-plus reply task is launched (its handler runs and sends a
message), but its promise is overwritten before being pushed, so the
`Promise.all` aggregate returned by dispatch contains only the plus-minus
task: the launched self-plus task's failure would be silently swallowed,
contradicting the claim. -/
theorem launched_selfPlus_task_missing_from_aggregate :
    ReplyTask.selfPlus "U0" "C1" ∈
        (handleEvent ⟨some "message", none, some "<@U0>++", "U0", "C1"⟩).launched ∧
    (handleEvent ⟨some "message", none, some "<@U0>++", "U0", "C1"⟩).result =
      EventResult.batch [ReplyTask.plusMinus "U0" '+' "C1"] := by decide

/-- C9: the two-item event launches exactly two reply tasks, the mutation
request (U1, plus) then the mutation request (U2, minus), in left-to-right
text order, and the returned aggregate joins exactly those two tasks. -/
theorem two_item_batch_end_to_end :
    handleEvent ⟨some "message", none, some "<@U1>++ <@U2>--", "U0", "C1"⟩ =
      ⟨[ReplyTask.plusMinus "U1" '+' "C1", ReplyTask.plusMinus "U2" '-' "C1"], [],
        EventResult.batch
          [ReplyTask.plusMinus "U1" '+' "C1", ReplyTask.plusMinus "U2" '-' "C1"]⟩ := by decide

/-- C4 counterexample: the claim asserts the empty-batch outcome is
distinguishable from the not-handled outcome, but a valid message event with
no tokens returns the very same `false` value as an event of unrecognized
type: both results are `notHandled`. -/
theorem empty_batch_result_equals_not_handled_result :
    (handleEvent ⟨some "message", none, some "hello world", "U0", "C1"⟩).result =
      (handleEvent ⟨some "bogus_event", none, some "hello world", "U0", "C1"⟩).result := by decide

/-- C4 (amended): for every valid message event whose text yields zero valid
tokens, dispatch completes with zero reply tasks and returns the very same
`false` not-handled value that non-message and malformed events produce (the
code does not distinguish the two outcomes). -/
theorem empty_batch_zero_tasks_returns_false (e : RawEvent) (t s : String)
    (htype : e.type = some t) (hname : camelCase t = "message")
    (hsub : e.subtype = none) (htext : e.text = some s)
    (hblank : isBlank s = false) (hempty : validTokens s = []) :
    handleEvent e = ⟨[], [], EventResult.notHandled⟩ := by
  have htextStr : e.textStr = s := by simp [RawEvent.textStr, htext]
  simp only [handleEvent, htype, hsub, htext, hblank, hname, Bool.false_eq_true,
    if_false, if_pos]
  cases hx : extractEvents s with
  | none => simp [handlers.message, htextStr, hx]
  | some items =>
    have hall : ∀ tok ∈ items, ∀ item operation,
        extractPlusMinusEventData tok = some (item, operation) → item = "" := by
      intro tok htok item operation hxt
      by_contra hne
      have hmem : (item, operation) ∈ validTokens s := by
        unfold validTokens
        rw [hx]
        refine List.mem_filter.mpr ⟨List.mem_filterMap.mpr ⟨tok, by simpa using htok, hxt⟩, ?_⟩
        simpa using hne
      rw [hempty] at hmem
      exact absurd hmem (List.not_mem_nil _)
    obtain ⟨a, ha⟩ := foldl_no_valid e items ⟨[], [], [], []⟩ hall
    simp [handlers.message, htextStr, hx, ha]

/-- C4 witness: the amended theorem applied at a concrete valid message event
whose text has no tokens. -/
theorem empty_batch_zero_tasks_returns_false_witness :
    handleEvent ⟨some "message", none, some "hello world", "U0", "C1"⟩ =
      ⟨[], [], EventResult.notHandled⟩ :=
  empty_batch_zero_tasks_returns_false
    ⟨some "message", none, some "hello world", "U0", "C1"⟩ "message" "hello world"
    rfl (by decide) rfl rfl (by decide) (by decide)

/-- C6: a message event whose single token parses to the actor with the minus
operation is dispatched to the ordinary plus-minus handler — the self guard
does not fire, and a mutation request for the actor with the minus operation
is launched and aggregated.  Moreover (last hypothesis and conjunct) the
self-plus handler is ever launched only when some token parsed to the acting
user with the plus operation: the guard fires only for increments. -/
theorem self_minus_dispatches_plus_minus_handler (e e2 : RawEvent)
    (t s tok u c : String)
    (htype : e.type = some t) (hname : camelCase t = "message")
    (hsub : e.subtype = none) (htext : e.text = some s)
    (hblank : isBlank s = false)
    (hext : extractEvents s = some [tok])
    (hdata : extractPlusMinusEventData tok = some (e.user, '-'))
    (hne : e.user ≠ "")
    (hself : ReplyTask.selfPlus u c ∈ (handleEvent e2).launched) :
    (handleEvent e).launched = [ReplyTask.plusMinus e.user '-' e.channel] ∧
    (handleEvent e).result =
      EventResult.batch [ReplyTask.plusMinus e.user '-' e.channel] ∧
    (u = e2.user ∧
      ∃ tok2, tok2 ∈ (extractEvents e2.textStr).getD [] ∧
        extractPlusMinusEventData tok2 = some (e2.user, '+')) := by
  have htextStr : e.textStr = s := by simp [RawEvent.textStr, htext]
  obtain ⟨hu, hc2, hex⟩ := selfPlus_mem_handleEvent e2 u c hself
  refine ⟨?_, ?_, hu, hex⟩ <;>
    simp [handleEvent, htype, hsub, htext, hblank, hname, handlers.message,
      htextStr, hext, processItem, hdata, hne, jsIndexOf, handlePlusMinus,
      handleSelfPlus, handleRetrieveScore]

/-- C6 witness: the theorem applied at the concrete self-minus event, with the
guard conjunct witnessed by the concrete self-plus event. -/
theorem self_minus_dispatches_plus_minus_handler_witness :
    (handleEvent ⟨some "message", none, some "<@U0>--", "U0", "C1"⟩).launched =
      [ReplyTask.plusMinus "U0" '-' "C1"] ∧
    (handleEvent ⟨some "message", none, some "<@U0>--", "U0", "C1"⟩).result =
      EventResult.batch [ReplyTask.plusMinus "U0" '-' "C1"] ∧
    ("U0" = "U0" ∧
      ∃ tok2,
        tok2 ∈ (extractEvents
          (RawEvent.textStr ⟨some "message", none, some "<@U0>++", "U0", "C1"⟩)).getD [] ∧
        extractPlusMinusEventData tok2 = some ("U0", '+')) :=
  self_minus_dispatches_plus_minus_handler
    ⟨some "message", none, some "<@U0>--", "U0", "C1"⟩
    ⟨some "message", none, some "<@U0>++", "U0", "C1"⟩
    "message" "<@U0>--" "<@U0>--" "U0" "C1"
    rfl (by decide) rfl rfl (by decide) (by decide) (by decide) (by decide) (by decide)

/-- C7 counterexample: an unrecognized type whose camelCased name is a
function-valued member of `Object.prototype`: for type `to_string` (camelCase
`toString`) the source looks up `handlers["toString"]`, finds the inherited
`toString` function, passes the `instanceof Function` check, invokes it, and
returns its truthy string result — no diagnostic is logged and the returned
value is not the soft `false`, refuting the claim as stated. -/
theorem inherited_type_not_soft_failed :
    (handleEvent ⟨some "to_string", none, some "hi", "U0", "C1"⟩).result ≠
      EventResult.notHandled ∧
    (handleEvent ⟨some "to_string", none, some "hi", "U0", "C1"⟩).logs = [] := by decide

/-- C7 (amended): every inbound event with a missing type, or a present
subtype, or missing or blank text, yields the soft not-handled result with no
handler invoked, no reply task launched, and a diagnostic logged; the same
holds for an unrecognized type provided its camelCased name is not a
function-valued property inherited from `Object.prototype` (types camelCasing
to such a name instead invoke the inherited member, with no diagnostic). -/
theorem malformed_events_soft_fail (e : RawEvent)
    (h : e.type = none ∨ e.subtype ≠ none ∨ e.text = none ∨
      (∃ s, e.text = some s ∧ isBlank s = true) ∨
      (∃ t, e.type = some t ∧
        camelCase t ≠ "message" ∧ camelCase t ≠ "appMention" ∧
        camelCase t ∉ objectPrototypeFunctionProps)) :
    (handleEvent e).launched = [] ∧
    (handleEvent e).result = EventResult.notHandled ∧
    (handleEvent e).logs ≠ [] := by
  cases hty : e.type with
  | none => simp [handleEvent, hty]
  | some ty =>
    cases hsub : e.subtype with
    | some sub => simp [handleEvent, hty, hsub]
    | none =>
      cases htx : e.text with
      | none => simp [handleEvent, hty, hsub, htx]
      | some txt =>
        by_cases hb : isBlank txt = true
        · simp [handleEvent, hty, hsub, htx, hb]
        · rcases h with h | h | h | ⟨s, hs, hbs⟩ | ⟨t, ht, hm, ha, hp⟩
          · rw [hty] at h; exact absurd h (by simp)
          · exact absurd hsub h
          · rw [htx] at h; exact absurd h (by simp)
          · rw [htx] at hs
            injection hs with hs
            subst hs
            exact absurd hbs hb
          · rw [hty] at ht
            injection ht with ht
            subst ht
            simp [handleEvent, hty, hsub, htx, hb, hm, ha, hp]

/-- C7 witness: the theorem applied at a concrete event with no type. -/
theorem malformed_events_soft_fail_witness :
    (handleEvent ⟨none, none, none, "U0", "C1"⟩).launched = [] ∧
    (handleEvent ⟨none, none, none, "U0", "C1"⟩).result = EventResult.notHandled ∧
    (handleEvent ⟨none, none, none, "U0", "C1"⟩).logs ≠ [] :=
  malformed_events_soft_fail ⟨none, none, none, "U0", "C1"⟩ (Or.inl rfl)

/-- C8: every valid mention event produces exactly one reply task: the
resolved command's registered handler when the text resolves to a command of
the fixed vocabulary, and the default reply to the event's channel otherwise;
the returned value is the single task's promise. -/
theorem mention_event_single_reply (e : RawEvent) (t s : String)
    (htype : e.type = some t) (hname : camelCase t = "appMention")
    (hsub : e.subtype = none) (htext : e.text = some s)
    (hblank : isBlank s = false) :
    ∃ task, (handleEvent e).launched = [task] ∧
      (handleEvent e).result = EventResult.one task ∧
      (∀ cmd, extractCommand s validCommands = some cmd →
        ∃ hd, appCommandHandlers.lookup cmd = some hd ∧
          task = ReplyTask.mention hd e.user e.channel) ∧
      (extractCommand s validCommands = none →
        task = ReplyTask.defaultReply e.channel) := by
  have htextStr : e.textStr = s := by simp [RawEvent.textStr, htext]
  have hroute : handleEvent e = handlers.appMention e := by
    simp [handleEvent, htype, hsub, htext, hblank, hname]
  rw [hroute]
  cases hx : extractCommand s validCommands with
  | some cmd =>
    obtain ⟨hd, hl⟩ := lookup_validCommands (extractCommand_mem hx)
    refine ⟨ReplyTask.mention hd e.user e.channel, ?_, ?_, ?_, ?_⟩
    · simp [handlers.appMention, htextStr, hx, hl]
    · simp [handlers.appMention, htextStr, hx, hl]
    · intro cmd2 hx2
      injection hx2 with hx2
      subst hx2
      exact ⟨hd, hl, rfl⟩
    · intro hx2
      exact absurd hx2 (by simp)
  | none =>
    refine ⟨ReplyTask.defaultReply e.channel, ?_, ?_, ?_, ?_⟩
    · simp [handlers.appMention, htextStr, hx]
    · simp [handlers.appMention, htextStr, hx]
    · intro cmd2 hx2
      exact absurd hx2 (by simp)
    · intro _
      rfl

/-- C8 witness: the theorem applied at a concrete mention event carrying the
help command. -/
theorem mention_event_single_reply_witness :
    ∃ task,
      (handleEvent ⟨some "app_mention", none, some "<@B1> help", "U0", "C1"⟩).launched
        = [task] ∧
      (handleEvent ⟨some "app_mention", none, some "<@B1> help", "U0", "C1"⟩).result
        = EventResult.one task ∧
      (∀ cmd, extractCommand "<@B1> help" validCommands = some cmd →
        ∃ hd, appCommandHandlers.lookup cmd = some hd ∧
          task = ReplyTask.mention hd "U0" "C1") ∧
      (extractCommand "<@B1> help" validCommands = none →
        task = ReplyTask.defaultReply "C1") :=
  mention_event_single_reply
    ⟨some "app_mention", none, some "<@B1> help", "U0", "C1"⟩ "app_mention"
    "<@B1> help" rfl (by decide) rfl rfl (by decide)

